import Mathlib

/-!
Verification development for the pxe-image configuration-compilation and
first-boot provisioning pipeline.

The Python sources are shallowly embedded over `List Char` (Python `str`
values are modelled as lists of characters, so that every operation is a
structurally recursive, kernel-computable function).  Effectful boundaries
(subprocess invocations, HTTP fetches, the filesystem) are passed in as
explicit parameters, following the source's use of them as opaque oracles.
-/

/-! ## String utilities shared by the embedded modules -/

deriving instance DecidableEq for Except

/-- A Python `str`, modelled as its list of characters. -/
abbrev Str := List Char

/-- Python `s1 <= s2` on `str`: lexicographic comparison by code point. -/
def strLe : Str → Str → Bool
  | [], _ => true
  | _ :: _, [] => false
  | x :: xs, y :: ys => if x = y then strLe xs ys else decide (x < y)

/-- Python `str.strip()`: drop leading and trailing whitespace. -/
def pyStrip (s : Str) : Str :=
  ((s.dropWhile Char.isWhitespace).reverse.dropWhile Char.isWhitespace).reverse

/-- Python `s.split(c, 1)`: split at the first occurrence of `c`, returning
`none` when `c` does not occur. -/
def splitFirst (c : Char) : Str → Option (Str × Str)
  | [] => none
  | x :: xs =>
    if x = c then some ([], xs)
    else
      match splitFirst c xs with
      | none => none
      | some (a, b) => some (x :: a, b)

/-- Python `s.rsplit(c, 1)`: split at the last occurrence of `c`. -/
def splitLast (c : Char) (s : Str) : Option (Str × Str) :=
  match splitFirst c s.reverse with
  | none => none
  | some (a, b) => some (b.reverse, a.reverse)

/-- Split a string at every occurrence of `c` (Python `str.split(c)`). -/
def splitAll (c : Char) : Str → List Str
  | [] => [[]]
  | x :: xs =>
    if x = c then [] :: splitAll c xs
    else
      match splitAll c xs with
      | [] => [[x]]
      | p :: ps => (x :: p) :: ps

/-- Python `sep.join(parts)`. -/
def strJoin (sep : Str) (parts : List Str) : Str := List.intercalate sep parts

/-- Decimal rendering of a natural number, as Python `str(n)` for `n >= 0`. -/
def natStr (n : Nat) : Str := Nat.toDigits 10 n

/-- Insert into a `strLe`-sorted list, keeping it sorted. -/
def insertSorted (x : Str) : List Str → List Str
  | [] => [x]
  | y :: ys => if strLe x y then x :: y :: ys else y :: insertSorted x ys

/-- Python `sorted` on a list of strings (insertion sort; the result is
characterised up to permutation, which pins it down on duplicate-free input). -/
def sortStrs : List Str → List Str
  | [] => []
  | x :: xs => insertSorted x (sortStrs xs)

/-- First-seen deduplication with a `seen` accumulator, mirroring the
Python idiom of a list extended under a `not in seen` guard. -/
def dedupFirstAux (seen : List Str) : List Str → List Str
  | [] => []
  | x :: xs =>
    if x ∈ seen then dedupFirstAux seen xs
    else x :: dedupFirstAux (seen ++ [x]) xs

/-- First-seen deduplication of a list of strings. -/
def dedupFirst (l : List Str) : List Str := dedupFirstAux [] l


/-! ## Embedding of src/pxe_image/simple_config.py -/

/-- Numeric value of a digit string (helper for `pyInt`). -/
def digitsVal (s : Str) : Nat :=
  s.foldl (fun acc c => acc * 10 + (c.toNat - '0'.toNat)) 0

/-- Parse a non-empty all-digit string. -/
def pyDigits (s : Str) : Option Nat :=
  if s ≠ [] ∧ s.all Char.isDigit then some (digitsVal s) else none

/-- Python `int(value)` on an already-stripped string: an optional sign
followed by decimal digits (digit-group underscores and non-ASCII digits are
outside the configuration grammar and not modelled). -/
def pyInt (s : Str) : Option Int :=
  match s with
  | '-' :: rest => (pyDigits rest).map (fun n => -(n : Int))
  | '+' :: rest => (pyDigits rest).map (fun n => (n : Int))
  | _ => (pyDigits s).map (fun n => (n : Int))

/-- The `Line {lineno}: ` prefix carried by every parse error message. -/
def lineTag (lineno : Nat) : Str := "Line ".data ++ natStr lineno ++ ": ".data

/-- Data container describing a GitHub repository location
(`simple_config.RepoSpec`). -/
structure RepoSpec where
  owner : Str
  repo : Str
  path : Str
  ref : Str
  deriving DecidableEq

/-- One entry of a user's `github_keys` list as produced by the parser: the
tagged `type: user / url / repo` dictionaries of `parse_user_line`. -/
inductive KeySpec where
  | user (name : Str)
  | url (u : Str)
  | repo (owner repo path ref : Str)
  deriving DecidableEq

/-- The user dictionary built by `parse_user_line`.  Absent optional keys are
`none`; `password_is_hashed` is `false` when the key is absent. -/
structure UserSpec where
  username : Str
  password : Option Str
  password_is_hashed : Bool
  gecos : Option Str
  shell : Option Str
  home : Option Str
  uid : Option Int
  gid : Option Int
  github_keys : List KeySpec
  deriving DecidableEq

/-- The `@ref` stage of `parse_repo_spec`: split at the last `@`; a missing
or empty ref falls back to `main`, exactly as the source's `or` expression
does. -/
def repoSplitRef (spec : Str) : Str × Str :=
  match splitLast '@' spec with
  | none => (spec, "main".data)
  | some (a, b) => (a, if b = [] then "main".data else b)

/-- The `:path` stage of `parse_repo_spec`: split the remainder at the first
`:`; a missing or empty path falls back to `authorized_keys`. -/
def repoSplitPath (spec1 : Str) : Str × Str :=
  match splitFirst ':' spec1 with
  | none => (spec1, "authorized_keys".data)
  | some (a, b) => (a, if b = [] then "authorized_keys".data else b)

/-- Embedding of `simple_config.parse_repo_spec` (lines 48-64): strip an
optional `@ref` at the last `@`, an optional `:path` at the first `:` of the
remainder, then require an `owner/repo` shape. -/
def parse_repo_spec (spec : Str) (lineno : Nat) : Except Str RepoSpec :=
  let spec1 := (repoSplitRef spec).1
  let ref := (repoSplitRef spec).2
  let repo_part := (repoSplitPath spec1).1
  let path := (repoSplitPath spec1).2
  match splitFirst '/' repo_part with
  | none =>
    .error (lineTag lineno ++ "repository specification '".data ++ spec1 ++
      "' must include owner/repo".data)
  | some (owner, repo) =>
    if owner = [] ∨ repo = [] then
      .error (lineTag lineno ++ "repository specification '".data ++ spec1 ++
        "' is invalid".data)
    else
      .ok { owner := owner, repo := repo, path := path, ref := ref }

/-- The password token of a user line (`parse_user_line` lines 82-99):
`-`/`none`/`null` mean no password, a `hash:` prefix marks the remainder as a
pre-hashed credential, anything else is a plaintext credential.  The final
truthiness guard (`if password:`) is folded in: an empty credential is
recorded as no password and clears the hashed flag. -/
def parsePassword (raw : Str) : Option Str × Bool :=
  if raw = "-".data ∨ raw = "none".data ∨ raw = "null".data then (none, false)
  else
    let pr :=
      if ("hash:".data).isPrefixOf raw then
        ((match splitFirst ':' raw with
          | some (_, b) => b
          | none => raw), true)
      else (raw, false)
    if pr.1 = [] then (none, false) else (some pr.1, pr.2)

/-- Processing of one token after `username password` (`parse_user_line`
lines 101-129): a `key=value` attribute or a bare repository specification. -/
def applyToken (lineno : Nat) (u : UserSpec) (token : Str) : Except Str UserSpec :=
  match splitFirst '=' token with
  | some (k0, v0) =>
    let key := pyStrip k0
    let value := pyStrip v0
    if key = "gecos".data then .ok { u with gecos := some value }
    else if key = "shell".data then .ok { u with shell := some value }
    else if key = "home".data then .ok { u with home := some value }
    else if key = "uid".data then
      match pyInt value with
      | some n => .ok { u with uid := some n }
      | none => .error (lineTag lineno ++ key ++ " must be an integer".data)
    else if key = "gid".data then
      match pyInt value with
      | some n => .ok { u with gid := some n }
      | none => .error (lineTag lineno ++ key ++ " must be an integer".data)
    else if key = "github_user".data then
      .ok { u with github_keys := u.github_keys ++ [KeySpec.user value] }
    else if key = "github_url".data then
      .ok { u with github_keys := u.github_keys ++ [KeySpec.url value] }
    else
      .error (lineTag lineno ++ "unsupported attribute '".data ++ key ++ "'".data)
  | none =>
    match parse_repo_spec token lineno with
    | .error e => .error e
    | .ok rs =>
      .ok { u with github_keys :=
        u.github_keys ++ [KeySpec.repo rs.owner rs.repo rs.path rs.ref] }

/-- Embedding of `simple_config.ensure_user_defaults` (lines 67-69):
`gecos` defaults to the username and `shell` to `/bin/bash`, each only if
still unset. -/
def ensure_user_defaults (u : UserSpec) : UserSpec :=
  { u with
    gecos := some (u.gecos.getD u.username),
    shell := some (u.shell.getD "/bin/bash".data) }

/-- Embedding of `simple_config.parse_user_line` (lines 72-135) over the
already-tokenized line.  Tokenization itself (`shlex.split` with POSIX quoting
and `#` comments) is a standard-library boundary; on quote-free lines it is
whitespace splitting, which is how the concrete examples below are supplied. -/
def parse_user_line (tokens : List Str) (lineno : Nat) : Except Str UserSpec :=
  match tokens with
  | [] => .error (lineTag lineno ++ "empty user definition".data)
  | [_] =>
    .error (lineTag lineno ++
      "expected 'username password repo[:path][@ref] [additional ...]'".data)
  | [_, _] =>
    .error (lineTag lineno ++
      "expected 'username password repo[:path][@ref] [additional ...]'".data)
  | t0 :: t1 :: rest =>
    let pw := parsePassword t1
    let u0 : UserSpec :=
      { username := t0, password := pw.1, password_is_hashed := pw.2,
        gecos := none, shell := none, home := none, uid := none, gid := none,
        github_keys := [] }
    match rest.foldlM (applyToken lineno) u0 with
    | .error e => .error e
    | .ok u1 =>
      if u1.github_keys = [] then
        .error (lineTag lineno ++ "at least one GitHub key source must be provided".data)
      else
        .ok (ensure_user_defaults u1)

/-- Embedding of `simple_config.parse_services` (lines 38-45) over the file's
lines: keep each stripped line that is neither blank nor a `#` comment, in
file order. -/
def parse_services : List Str → List Str
  | [] => []
  | line :: rest =>
    let stripped := pyStrip line
    if stripped = [] then parse_services rest
    else if ("#".data).isPrefixOf stripped then parse_services rest
    else stripped :: parse_services rest

/-- The `services` block of the compiled configuration. -/
structure ServicePolicy where
  enable : List Str
  disable : List Str
  deriving DecidableEq

/-- The compiled configuration object produced by `render_config`. -/
structure CompiledConfig where
  packages : List Str
  services : ServicePolicy
  users : List UserSpec
  deriving DecidableEq

/-- Embedding of `simple_config.render_config` (lines 148-156). -/
def render_config (users : List UserSpec) (packages : List Str)
    (services : List Str) : CompiledConfig :=
  { packages := packages,
    services := { enable := services, disable := [] },
    users := users }

/-- A token that `parse_user_line` processes without failing and without
appending a key source: the shape of the extra tokens on a user line that
yields zero key sources. -/
def AttrOnly (lineno : Nat) (t : Str) : Prop :=
  ∀ u : UserSpec, ∃ u', applyToken lineno u t = Except.ok u' ∧
    u'.github_keys = u.github_keys

/-! ## Embedding of src/kiwi/root/usr/local/lib/custom/provision.py -/

/-- One entry of a user's `github_keys` list as consumed by the provisioner
(`collect_authorized_keys` lines 101-123).  `malformed` stands for the entries
the loop skips without fetching: values that are not dictionaries, entries
with an unknown `type`, and entries whose required field is missing (the
caught `KeyError`). -/
inductive KeySource where
  | user (name : Str)
  | repo (owner repo path ref : Str)
  | url (u : Str)
  | malformed
  deriving DecidableEq

/-- The URL a key source resolves to, `none` when the loop skips the entry
without fetching (`collect_authorized_keys` lines 106-121). -/
def sourceUrl : KeySource → Option Str
  | KeySource.user name => some ("https://github.com/".data ++ name ++ ".keys".data)
  | KeySource.repo owner repo path ref =>
    some ("https://raw.githubusercontent.com/".data ++ owner ++ "/".data ++ repo ++
      "/".data ++ ref ++ "/".data ++ path)
  | KeySource.url u => some u
  | KeySource.malformed => none

/-- Embedding of `provision.fetch_remote_keys` (lines 133-141), parameterized
by the HTTP boundary `fetch` (URL to response body, or an error for any
network failure, timeout or non-2xx status).  The body is split into lines
and each line stripped, dropping blanks.  Python `splitlines` also recognises
exotic line terminators; those never survive the strip-and-drop-blank pass
differently from plain `\n` splitting on the key material at issue. -/
def fetch_remote_keys (fetch : Str → Except Str Str) (url : Str) :
    Except Str (List Str) :=
  match fetch url with
  | .error e =>
    .error ("Failed to fetch keys from ".data ++ url ++ ": ".data ++ e)
  | .ok body => .ok (((splitAll '\n' body).map pyStrip).filter (fun l => l ≠ []))

/-- The outcome of resolving one key source: `none` when the source is
skipped (no URL, or `fetch_remote_keys` failed), otherwise its key lines. -/
def resolveSource (fetch : Str → Except Str Str) (s : KeySource) :
    Option (List Str) :=
  match sourceUrl s with
  | none => none
  | some u =>
    match fetch_remote_keys fetch u with
    | .error _ => none
    | .ok keys => some keys

/-- The inner accumulation loop of `collect_authorized_keys` (lines 125-128):
append each non-blank key not seen before. -/
def addKeys (collected : List Str) (keys : List Str) : List Str :=
  keys.foldl (fun c k => if k ≠ [] ∧ k ∉ c then c ++ [k] else c) collected

/-- Embedding of `provision.collect_authorized_keys` (lines 97-130) over the
user's key-source list: resolve each source, skipping failures, and collect
the resulting key lines first-seen deduplicated. -/
def collect_authorized_keys (fetch : Str → Except Str Str)
    (sources : List KeySource) : List Str :=
  sources.foldl
    (fun c s =>
      match resolveSource fetch s with
      | none => c
      | some keys => addKeys c keys)
    []

/-- First-seen deduplication that also drops blank entries, with the `seen`
accumulator made explicit (the normal form shared by the provisioner's key
collection and the validator's package normalisation). -/
def dedupNBAux (seen : List Str) : List Str → List Str
  | [] => []
  | k :: ks =>
    if k = [] ∨ k ∈ seen then dedupNBAux seen ks
    else k :: dedupNBAux (seen ++ [k]) ks

/-- The list of `authorized_keys` lines written by
`provision.install_authorized_keys` (lines 144-159): the sorted set union of
the stripped non-blank pre-existing lines and the freshly resolved keys. -/
def install_authorized_keys_lines (existingLines : List Str)
    (keys : List Str) : List Str :=
  sortStrs (dedupFirst (((existingLines.map pyStrip).filter (fun l => l ≠ [])) ++ keys))

/-- The full text written by `install_authorized_keys` (line 156):
newline-joined sorted keys plus a trailing newline. -/
def install_authorized_keys_text (existingLines : List Str)
    (keys : List Str) : Str :=
  strJoin "\n".data (install_authorized_keys_lines existingLines keys) ++ "\n".data

/-- The host-state inputs of `provision.install_to_disk` (lines 203-223):
whether `kiwi-install` is on PATH, whether the `installed` marker file
already exists, and whether the installer subprocess exits successfully. -/
structure InstallEnv where
  kiwiInstall : Option Str
  markerExists : Bool
  installOk : Bool
  deriving DecidableEq

/-- The observable effects of one `install_to_disk` run: whether the external
installer was invoked, and the marker file content written (if any). -/
structure InstallOutcome where
  installerInvoked : Bool
  markerWritten : Option Str
  deriving DecidableEq

/-- Embedding of `provision.install_to_disk` (lines 203-223).  A falsy disk
(absent or empty) or a missing installer binary returns immediately; an
existing marker skips the installation; otherwise the installer runs, and the
marker recording the disk is written only when it succeeds. -/
def install_to_disk (env : InstallEnv) (disk : Option Str) : InstallOutcome :=
  match disk with
  | none => { installerInvoked := false, markerWritten := none }
  | some d =>
    if d = [] then { installerInvoked := false, markerWritten := none }
    else
      match env.kiwiInstall with
      | none => { installerInvoked := false, markerWritten := none }
      | some _ =>
        if env.markerExists then { installerInvoked := false, markerWritten := none }
        else if env.installOk then
          { installerInvoked := true, markerWritten := some (d ++ ['\n']) }
        else
          { installerInvoked := true, markerWritten := none }

/-- A concrete fetch environment used to exercise the key collector: one
reachable per-user endpoint serving two keys, every other URL failing. -/
def fetchW : Str → Except Str Str :=
  fun u =>
    if u = "https://github.com/a.keys".data then .ok "keyB\nkeyA".data
    else .error "connection refused".data

/-! ## Embedding of src/pxe_image/config.py -/

/-- The package-list normalisation loop of `config._normalise_packages`
(lines 39-50), with the `seen` set made explicit: strip each entry, drop
blanks and already-seen names.  The `isinstance(pkg, str)` guard skips
non-string entries; the inputs modelled here are the string entries. -/
def normalisePackagesAux (seen : List Str) : List Str → List Str
  | [] => []
  | pkg :: rest =>
    let stripped := pyStrip pkg
    if stripped = [] ∨ stripped ∈ seen then normalisePackagesAux seen rest
    else stripped :: normalisePackagesAux (seen ++ [stripped]) rest

/-- Embedding of `config._normalise_packages` (lines 39-50). -/
def normalise_packages (packages : List Str) : List Str :=
  normalisePackagesAux [] packages

/-- Embedding of `config._chunked(values, 25)` (lines 53-55, chunk size from
line 90), with the list length as structural fuel: dropping 25 elements
strictly shortens a non-empty list, so the fuel never runs out. -/
def chunkedAux : Nat → List Str → List (List Str)
  | 0, _ => []
  | _ + 1, [] => []
  | fuel + 1, v :: vs => ((v :: vs).take 25) :: chunkedAux fuel ((v :: vs).drop 25)

/-- Chunking a package list into batches of at most 25 names. -/
def chunked25 (values : List Str) : List (List Str) := chunkedAux values.length values

/-- Case-insensitive literal match (the `re.IGNORECASE` flag of
`config._MISSING_RE`, line 58): if the pattern is a prefix of the text up to
ASCII case, return the rest of the text. -/
def matchCI : Str → Str → Option Str
  | [], s => some s
  | _ :: _, [] => none
  | p :: ps, c :: cs => if p.toLower = c.toLower then matchCI ps cs else none

/-- One attempted match of the pattern `Package '([^']+)' not found\.` at the
start of the text: the literal head, a non-empty capture up to the next
quote, then the literal tail.  Returns the captured name and the rest of the
text after the match. -/
def missingMatchAt (s : Str) : Option (Str × Str) :=
  match matchCI "Package '".data s with
  | none => none
  | some rest1 =>
    match splitFirst '\'' rest1 with
    | none => none
    | some (name, rest2) =>
      if name = [] then none
      else
        match matchCI " not found.".data rest2 with
        | none => none
        | some rest3 => some (name, rest3)

/-- The left-to-right, non-overlapping scan of `findall` for
`config._MISSING_RE`, with the text length as structural fuel (a successful
match consumes at least one character, and a failed position advances by
one, so the fuel never runs out).  The pattern's trailing `\s*` only skips
whitespace that no later match can start with, so it is inert for the
captured names. -/
def findMissingAux : Nat → Str → List Str
  | 0, _ => []
  | _ + 1, [] => []
  | fuel + 1, c :: cs =>
    match missingMatchAt (c :: cs) with
    | some (name, rest) => name :: findMissingAux fuel rest
    | none => findMissingAux fuel cs

/-- All names captured by `config._MISSING_RE.findall` over the oracle
output. -/
def findMissingNames (output : Str) : List Str :=
  findMissingAux output.length output

/-- Embedding of `config._extract_missing_packages` (lines 61-69): the names
the oracle's diagnostic text reports as not found, or the whole requested
batch when the text yields no match (including when it is empty). -/
def extract_missing_packages (output : Str) (requested : List Str) : List Str :=
  let missing := if output = [] then [] else findMissingNames output
  if missing = [] then requested else missing

/-- Handling of one failing batch inside `config.validate_packages`
(lines 103-110 of the committed file).  The committed function is an
unresolved merge: an older per-package loop is spliced into the newer batched
revision's `subprocess.run` call (lines 95-102), which leaves the module
unparseable, and the older loop's unconditional `missing.append(pkg)`
(line 108) survives directly after the newer deduplicating loop
(lines 105-107).  This embedding follows the surviving executable statement
sequence: the deduplicating loop runs first, then line 108 appends the final
value of its loop variable `pkg` — the last element of `chunk_missing` —
once more, unconditionally.  The `oracle` parameter models one
`zypper --non-interactive --no-refresh info <chunk>` run: `none` for exit
status 0, `some out` for a non-zero exit with `out` the concatenated stdout
and stderr. -/
def validateChunkStep (oracle : List Str → Option Str) (missing : List Str)
    (chunk : List Str) : List Str :=
  match oracle chunk with
  | none => missing
  | some out =>
    let chunk_missing := extract_missing_packages out chunk
    let m := chunk_missing.foldl
      (fun acc p => if p ∈ acc then acc else acc ++ [p]) missing
    match chunk_missing.getLast? with
    | some p => m ++ [p]
    | none => m

/-- Embedding of `config.validate_packages` (lines 80-117), following the
surviving statement sequence of the conflicted source (see
`validateChunkStep`): normalise, short-circuit on an empty list, fail when
the oracle binary is unavailable, validate in batches of 25, and report the
accumulated missing names sorted. -/
def validate_packages (zypperFound : Bool) (oracle : List Str → Option Str)
    (packages : List Str) : Except Str (List Str) :=
  let pkg_list := normalise_packages packages
  if pkg_list = [] then .ok []
  else if zypperFound = false then
    .error "zypper not found on the host; package validation cannot continue".data
  else
    let missing := (chunked25 pkg_list).foldl (validateChunkStep oracle) []
    if missing = [] then .ok pkg_list
    else
      .error ("The following packages could not be validated: ".data ++
        strJoin ", ".data (sortStrs missing))

/-- An oracle under which every batch fails and the diagnostic text reports
the package `a` as not found. -/
def oracleFail : List Str → Option Str :=
  fun _ => some "Package 'a' not found.".data

/-! ## Embedding of src/pxe_image/network.py -/

/-- The network descriptor assembled by the discovery code and rendered by
`render_ifcfg` (the `NetworkInfo` dictionary of `network.py`). -/
structure NetworkInfo where
  interface : Str
  address : Str
  prefixlen : Nat
  gateway : Option Str
  dns : List Str
  mtu : Option Nat
  deriving DecidableEq

/-- The line list built by `network.render_ifcfg` (lines 177-197): seven
mandatory lines, then GATEWAY, DNS and MTU lines appended when their values
are truthy (a non-empty gateway string, a non-empty joined DNS string, a
non-zero MTU). -/
def render_ifcfg_lines (n : NetworkInfo) : List Str :=
  let dns := strJoin " ".data (n.dns.filter (fun v => v ≠ []))
  let base :=
    ["DEVICE='".data ++ n.interface ++ "'".data,
     "BOOTPROTO='static'".data,
     "STARTMODE='auto'".data,
     "ONBOOT='yes'".data,
     "DEFROUTE='yes'".data,
     "PEERDNS='no'".data,
     "IPADDR='".data ++ n.address ++ "/".data ++ natStr n.prefixlen ++ "'".data]
  let withGw := base ++
    (match n.gateway with
     | some g => if g ≠ [] then ["GATEWAY='".data ++ g ++ "'".data] else []
     | none => [])
  let withDns := withGw ++ (if dns ≠ [] then ["DNS='".data ++ dns ++ "'".data] else [])
  withDns ++
    (match n.mtu with
     | some m => if m ≠ 0 then ["MTU='".data ++ natStr m ++ "'".data] else []
     | none => [])

/-- Embedding of `network.render_ifcfg` (lines 177-197): the newline-joined
lines plus a trailing newline. -/
def render_ifcfg (n : NetworkInfo) : Str :=
  strJoin "\n".data (render_ifcfg_lines n) ++ "\n".data

/-- One record of the `addr_info` array in the `ip -json addr show` payload:
the address family, the `local` address and the prefix length
(`local` is a Lean keyword, hence the field name `localAddr`). -/
structure AddrEntry where
  family : Str
  localAddr : Option Str
  prefixlen : Option Nat
  deriving DecidableEq

/-- One element of the JSON array produced by `ip -json addr show dev X`. -/
structure AddrPayload where
  addr_info : List AddrEntry
  mtu : Option Nat
  deriving DecidableEq

/-- Embedding of `network._build_interface_config` (lines 131-166 of the
committed file).  The address query result and the ambient results of
`detect_default_gateway()` and `read_resolv_conf()` are passed in explicitly
(`addrQuery = none` models a failed `ip` invocation).  The returned
dictionary literal of the source carries the key `"gateway"` twice — once
bound to the `gateway` parameter (line 162) and once to a fresh
`detect_default_gateway()` call (line 163); Python evaluates both values and
keeps the later one, so the descriptor's gateway is the re-queried
`detectedGateway` and the parameter is discarded.  (The module as committed
additionally fails to compile: unresolved merge residue leaves dangling
`def` headers at lines 19-20 and 131-132 and a stray block at lines 86-96.) -/
def build_interface_config (iface : Str) (gateway : Option Str)
    (addrQuery : Option (List AddrPayload)) (detectedGateway : Option Str)
    (resolvConf : List Str) : Except Str NetworkInfo :=
  match addrQuery with
  | none => .error ("Unable to inspect interface ".data ++ iface)
  | some addr_info =>
    match addr_info with
    | [] => .error ("Interface ".data ++ iface ++ " has no address information".data)
    | payload :: _ =>
      match payload.addr_info.find? (fun e => e.family == "inet".data) with
      | none => .error ("Interface ".data ++ iface ++ " has no IPv4 configuration".data)
      | some inet =>
        match inet.localAddr, inet.prefixlen with
        | some a, some p =>
          if a = [] then
            .error ("Incomplete IPv4 configuration detected for interface ".data ++ iface)
          else
            .ok { interface := iface, address := a, prefixlen := p,
                  gateway := detectedGateway, dns := resolvConf, mtu := payload.mtu }
        | _, _ =>
          .error ("Incomplete IPv4 configuration detected for interface ".data ++ iface)

/-- Embedding of `network.gather_interface_config_with_gateway`
(lines 173-174): forwards the already-detected gateway to
`_build_interface_config`. -/
def gather_interface_config_with_gateway (iface : Str) (gateway : Option Str)
    (addrQuery : Option (List AddrPayload)) (detectedGateway : Option Str)
    (resolvConf : List Str) : Except Str NetworkInfo :=
  build_interface_config iface gateway addrQuery detectedGateway resolvConf

/-- A concrete `ip -json addr show` payload: one interface with a single
IPv4 entry `10.0.0.5/24` and MTU 1500. -/
def addrPayloadW : AddrPayload :=
  { addr_info :=
      [{ family := "inet".data, localAddr := some "10.0.0.5".data,
         prefixlen := some 24 }],
    mtu := some 1500 }

/-! ## Lemmas and theorems -/

theorem strLe_refl (a : Str) : strLe a a = true := by
  induction a with
  | nil => rfl
  | cons x xs ih => simp [strLe, ih]

theorem strLe_total (a b : Str) : strLe a b = true ∨ strLe b a = true := by
  induction a generalizing b with
  | nil => left; rfl
  | cons x xs ih =>
    cases b with
    | nil => right; rfl
    | cons y ys =>
      by_cases h : x = y
      · subst h
        rcases ih ys with h1 | h1
        · left; simp [strLe, h1]
        · right; simp [strLe, h1]
      · rcases lt_or_gt_of_ne h with hlt | hgt
        · left; simp [strLe, h, hlt]
        · right
          have hne : y ≠ x := fun hh => h hh.symm
          simp [strLe, hne, not_lt_of_gt hgt, hgt]

theorem strLe_trans (a b c : Str) (hab : strLe a b = true) (hbc : strLe b c = true) :
    strLe a c = true := by
  induction a generalizing b c with
  | nil => rfl
  | cons x xs ih =>
    cases b with
    | nil => simp [strLe] at hab
    | cons y ys =>
      cases c with
      | nil => simp [strLe] at hbc
      | cons z zs =>
        by_cases hxy : x = y
        · subst hxy
          by_cases hyz : x = z
          · subst hyz
            simp only [strLe, if_pos rfl] at hab hbc ⊢
            exact ih ys zs hab hbc
          · simp only [strLe, if_pos rfl] at hab
            simp only [strLe, if_neg hyz] at hbc ⊢
            exact hbc
        · simp only [strLe, if_neg hxy] at hab
          have hxyl : x < y := of_decide_eq_true hab
          by_cases hyz : y = z
          · subst hyz
            simp only [strLe, if_neg hxy]
            exact decide_eq_true hxyl
          · simp only [strLe, if_neg hyz] at hbc
            have hyzl : y < z := of_decide_eq_true hbc
            have hxzl : x < z := lt_trans hxyl hyzl
            have hxz : x ≠ z := ne_of_lt hxzl
            simp only [strLe, if_neg hxz]
            exact decide_eq_true hxzl

theorem splitFirst_eq_none (c : Char) (s : Str) (h : c ∉ s) :
    splitFirst c s = none := by
  induction s with
  | nil => rfl
  | cons x xs ih =>
    have hxc : x ≠ c := fun hh => h (hh ▸ List.mem_cons_self x xs)
    have hxs : c ∉ xs := fun hh => h (List.mem_cons_of_mem x hh)
    simp [splitFirst, hxc, ih hxs]

theorem splitFirst_eq (c : Char) (s a b : Str) (h : splitFirst c s = some (a, b)) :
    s = a ++ c :: b := by
  induction s generalizing a b with
  | nil => simp [splitFirst] at h
  | cons x xs ih =>
    by_cases hx : x = c
    · subst hx
      simp [splitFirst] at h
      obtain ⟨ha, hb⟩ := h
      simp [← ha, ← hb]
    · simp only [splitFirst, if_neg hx] at h
      cases hsp : splitFirst c xs with
      | none => simp [hsp] at h
      | some p =>
        obtain ⟨a0, b0⟩ := p
        simp [hsp] at h
        obtain ⟨ha, hb⟩ := h
        have := ih a0 b0 hsp
        simp [← ha, ← hb, this]

theorem splitLast_eq_none (c : Char) (s : Str) (h : c ∉ s) :
    splitLast c s = none := by
  have : c ∉ s.reverse := by simpa using h
  simp [splitLast, splitFirst_eq_none c s.reverse this]

theorem splitLast_eq (c : Char) (s a b : Str) (h : splitLast c s = some (a, b)) :
    s = a ++ c :: b := by
  unfold splitLast at h
  cases hsp : splitFirst c s.reverse with
  | none => simp [hsp] at h
  | some p =>
    obtain ⟨a0, b0⟩ := p
    simp [hsp] at h
    obtain ⟨ha, hb⟩ := h
    have hs := splitFirst_eq c s.reverse a0 b0 hsp
    have : s.reverse.reverse = (a0 ++ c :: b0).reverse := by rw [hs]
    simpa [← ha, ← hb] using this

theorem insertSorted_perm (x : Str) (l : List Str) :
    List.Perm (insertSorted x l) (x :: l) := by
  induction l with
  | nil => exact List.Perm.refl _
  | cons y ys ih =>
    by_cases h : strLe x y = true
    · simp only [insertSorted, if_pos h]
      exact List.Perm.refl _
    · simp only [insertSorted, if_neg h]
      exact (ih.cons y).trans (List.Perm.swap x y ys)

theorem mem_insertSorted (x z : Str) (l : List Str) :
    z ∈ insertSorted x l ↔ z = x ∨ z ∈ l := by
  have := (insertSorted_perm x l).mem_iff (a := z)
  simpa using this

theorem insertSorted_pairwise (x : Str) (l : List Str)
    (h : l.Pairwise (fun a b => strLe a b = true)) :
    (insertSorted x l).Pairwise (fun a b => strLe a b = true) := by
  induction l with
  | nil => simp [insertSorted]
  | cons y ys ih =>
    by_cases hle : strLe x y = true
    · simp only [insertSorted, if_pos hle]
      refine List.Pairwise.cons ?_ h
      intro z hz
      rcases List.mem_cons.mp hz with hz | hz
      · exact hz ▸ hle
      · have hyz : strLe y z = true := (List.pairwise_cons.mp h).1 z hz
        -- transitivity via totality-free route: x ≤ y and y ≤ z gives x ≤ z
        exact strLe_trans x y z hle hyz
    · have hyx : strLe y x = true := by
        rcases strLe_total x y with h1 | h1
        · exact absurd h1 hle
        · exact h1
      obtain ⟨hy, hys⟩ := List.pairwise_cons.mp h
      simp only [insertSorted, if_neg hle]
      refine List.Pairwise.cons ?_ (ih hys)
      intro z hz
      rcases (mem_insertSorted x z ys).mp hz with hz | hz
      · exact hz ▸ hyx
      · exact hy z hz

theorem sortStrs_perm (l : List Str) : List.Perm (sortStrs l) l := by
  induction l with
  | nil => exact List.Perm.refl _
  | cons x xs ih =>
    exact (insertSorted_perm x (sortStrs xs)).trans (ih.cons x)

theorem sortStrs_pairwise (l : List Str) :
    (sortStrs l).Pairwise (fun a b => strLe a b = true) := by
  induction l with
  | nil => simp [sortStrs]
  | cons x xs ih => exact insertSorted_pairwise x (sortStrs xs) ih

theorem mem_dedupFirstAux (seen l : List Str) (a : Str) :
    a ∈ dedupFirstAux seen l ↔ a ∈ l ∧ a ∉ seen := by
  induction l generalizing seen with
  | nil => simp [dedupFirstAux]
  | cons x xs ih =>
    by_cases hx : x ∈ seen
    · simp only [dedupFirstAux, if_pos hx, ih]
      constructor
      · rintro ⟨h1, h2⟩
        exact ⟨List.mem_cons_of_mem x h1, h2⟩
      · rintro ⟨h1, h2⟩
        rcases List.mem_cons.mp h1 with h1 | h1
        · exact absurd (h1 ▸ hx) h2
        · exact ⟨h1, h2⟩
    · simp only [dedupFirstAux, if_neg hx, List.mem_cons, ih]
      constructor
      · rintro (h1 | ⟨h1, h2⟩)
        · exact ⟨Or.inl h1, h1 ▸ hx⟩
        · refine ⟨Or.inr h1, fun hc => h2 ?_⟩
          exact List.mem_append_left [x] hc
      · rintro ⟨h1 | h1, h2⟩
        · exact Or.inl h1
        · by_cases hax : a = x
          · exact Or.inl hax
          · refine Or.inr ⟨h1, fun hc => ?_⟩
            rcases List.mem_append.mp hc with hc | hc
            · exact h2 hc
            · simp at hc
              exact hax hc

theorem nodup_dedupFirstAux (seen l : List Str) :
    (dedupFirstAux seen l).Nodup := by
  induction l generalizing seen with
  | nil => simp [dedupFirstAux]
  | cons x xs ih =>
    by_cases hx : x ∈ seen
    · simpa [dedupFirstAux, hx] using ih seen
    · simp only [dedupFirstAux, if_neg hx]
      refine List.Nodup.cons ?_ (ih (seen ++ [x]))
      intro hc
      have := (mem_dedupFirstAux (seen ++ [x]) xs x).mp hc
      exact this.2 (List.mem_append_right seen (List.mem_singleton.mpr rfl))

theorem mem_dedupFirst (l : List Str) (a : Str) : a ∈ dedupFirst l ↔ a ∈ l := by
  simp [dedupFirst, mem_dedupFirstAux]

theorem nodup_dedupFirst (l : List Str) : (dedupFirst l).Nodup :=
  nodup_dedupFirstAux [] l

theorem repoSplitRef_no_at (spec : Str) (h : '@' ∉ spec) :
    repoSplitRef spec = (spec, "main".data) := by
  simp [repoSplitRef, splitLast_eq_none '@' spec h]

theorem repoSplitPath_no_colon (spec1 : Str) (h : ':' ∉ spec1) :
    repoSplitPath spec1 = (spec1, "authorized_keys".data) := by
  simp [repoSplitPath, splitFirst_eq_none ':' spec1 h]

theorem repoSplitRef_fst_mem (spec : Str) (c : Char) (h : c ∉ spec) :
    c ∉ (repoSplitRef spec).1 := by
  unfold repoSplitRef
  cases hsp : splitLast '@' spec with
  | none => simpa using h
  | some p =>
    obtain ⟨a, b⟩ := p
    have := splitLast_eq '@' spec a b hsp
    simp only
    intro hc
    exact h (this ▸ List.mem_append_left _ hc)

theorem repoSplitPath_fst_mem (spec1 : Str) (c : Char) (h : c ∉ spec1) :
    c ∉ (repoSplitPath spec1).1 := by
  unfold repoSplitPath
  cases hsp : splitFirst ':' spec1 with
  | none => simpa using h
  | some p =>
    obtain ⟨a, b⟩ := p
    have := splitFirst_eq ':' spec1 a b hsp
    simp only
    intro hc
    exact h (this ▸ List.mem_append_left _ hc)

theorem parse_repo_spec_ok_fields (spec : Str) (lineno : Nat) (rs : RepoSpec)
    (h : parse_repo_spec spec lineno = .ok rs) :
    rs.ref = (repoSplitRef spec).2 ∧
    rs.path = (repoSplitPath (repoSplitRef spec).1).2 := by
  simp only [parse_repo_spec] at h
  split at h
  · simp at h
  · split at h
    · simp at h
    · injection h with h
      rw [← h]
      exact ⟨rfl, rfl⟩

theorem parse_repo_spec_no_slash (spec : Str) (lineno : Nat) (h : '/' ∉ spec) :
    ∃ e, parse_repo_spec spec lineno = .error e := by
  have h1 : '/' ∉ (repoSplitRef spec).1 := repoSplitRef_fst_mem spec '/' h
  have h2 : '/' ∉ (repoSplitPath (repoSplitRef spec).1).1 :=
    repoSplitPath_fst_mem _ '/' h1
  simp only [parse_repo_spec]
  rw [splitFirst_eq_none '/' _ h2]
  exact ⟨_, rfl⟩

theorem foldlM_applyToken_attr_only (lineno : Nat) (rest : List Str)
    (hAttr : ∀ t ∈ rest, AttrOnly lineno t) (u : UserSpec) :
    ∃ u', rest.foldlM (applyToken lineno) u = Except.ok u' ∧
      u'.github_keys = u.github_keys := by
  induction rest generalizing u with
  | nil => exact ⟨u, rfl, rfl⟩
  | cons t ts ih =>
    obtain ⟨u1, hu1, hk1⟩ := hAttr t (List.mem_cons_self t ts) u
    obtain ⟨u2, hu2, hk2⟩ := ih (fun t' ht' => hAttr t' (List.mem_cons_of_mem t ht')) u1
    refine ⟨u2, ?_, hk2.trans hk1⟩
    rw [List.foldlM_cons, hu1]
    simpa using hu2

theorem parse_user_line_ok_keys (tokens : List Str) (lineno : Nat) (u : UserSpec)
    (h : parse_user_line tokens lineno = .ok u) : u.github_keys ≠ [] := by
  match tokens with
  | [] => simp [parse_user_line] at h
  | [_] => simp [parse_user_line] at h
  | [_, _] => simp [parse_user_line] at h
  | t0 :: t1 :: t2 :: rest =>
    simp only [parse_user_line] at h
    split at h
    · simp at h
    · split at h
      · simp at h
      · rename_i hk
        injection h with h
        rw [← h]
        simpa [ensure_user_defaults] using hk

theorem parse_services_eq_filter (lines : List Str) :
    parse_services lines =
      (lines.map pyStrip).filter (fun s => !s.isEmpty && !(("#".data).isPrefixOf s)) := by
  induction lines with
  | nil => rfl
  | cons line rest ih =>
    by_cases h1 : pyStrip line = []
    · simp [parse_services, h1, ih]
    · by_cases h2 : ("#".data).isPrefixOf (pyStrip line) = true
      · simp [parse_services, h1, h2, ih]
      · simp [parse_services, h1, h2, ih]

/-- C10: every compiled configuration produced from the text-format pipeline
has `services.disable` empty and `services.enable` equal to exactly the parsed
service names in file order (the stripped non-blank, non-comment lines). -/
theorem render_config_services_enable_only (users : List UserSpec)
    (packages : List Str) (lines : List Str) :
    (render_config users packages (parse_services lines)).services.disable = [] ∧
    (render_config users packages (parse_services lines)).services.enable =
      (lines.map pyStrip).filter (fun s => !s.isEmpty && !(("#".data).isPrefixOf s)) :=
  ⟨rfl, parse_services_eq_filter lines⟩

/-- C6: the user line `alice - octocat/keys:ssh.pub@develop gecos=Alice`
parses to username `alice`, no password, gecos `Alice`, the default shell and
exactly one repo key source; in general a repo-spec token without `@` gets ref
`main`, one without `:` gets path `authorized_keys`, and a token lacking
`owner/repo` structure fails the line. -/
theorem parse_user_line_repo_spec_defaults :
    parse_user_line ["alice".data, "-".data, "octocat/keys:ssh.pub@develop".data,
        "gecos=Alice".data] 1 =
      .ok { username := "alice".data, password := none, password_is_hashed := false,
            gecos := some "Alice".data, shell := some "/bin/bash".data, home := none,
            uid := none, gid := none,
            github_keys := [KeySpec.repo "octocat".data "keys".data "ssh.pub".data
              "develop".data] } ∧
    (∀ (spec : Str) (n : Nat) (rs : RepoSpec), parse_repo_spec spec n = .ok rs →
      ('@' ∉ spec → rs.ref = "main".data) ∧
      (':' ∉ spec → rs.path = "authorized_keys".data)) ∧
    (∀ (spec : Str) (n : Nat), '/' ∉ spec → ∃ e, parse_repo_spec spec n = .error e) := by
  refine ⟨by decide, ?_, parse_repo_spec_no_slash⟩
  intro spec n rs h
  obtain ⟨h1, h2⟩ := parse_repo_spec_ok_fields spec n rs h
  constructor
  · intro hat
    rw [h1, repoSplitRef_no_at spec hat]
  · intro hcol
    have hc : ':' ∉ (repoSplitRef spec).1 := repoSplitRef_fst_mem spec ':' hcol
    rw [h2, repoSplitPath_no_colon _ hc]

theorem parse_user_line_repo_spec_defaults_witness :
    ({ owner := "octocat".data, repo := "keys".data, path := "authorized_keys".data,
       ref := "main".data } : RepoSpec).ref = "main".data ∧
    ∃ e, parse_repo_spec "noslash".data 2 = .error e :=
  ⟨(parse_user_line_repo_spec_defaults.2.1 "octocat/keys".data 1 _ (by decide)).1 (by decide),
   parse_user_line_repo_spec_defaults.2.2 "noslash".data 2 (by decide)⟩

/-- C7: a user line that tokenizes successfully but yields zero key sources is
rejected with the `at least one GitHub key source must be provided` error;
no accepted user ever has an empty key-source list. -/
theorem parse_user_line_requires_key_source :
    (∀ (tokens : List Str) (n : Nat) (u : UserSpec),
        parse_user_line tokens n = .ok u → u.github_keys ≠ []) ∧
    (∀ (n : Nat) (t0 t1 t2 : Str) (rest : List Str),
        (∀ t ∈ t2 :: rest, AttrOnly n t) →
        parse_user_line (t0 :: t1 :: t2 :: rest) n =
          .error (lineTag n ++ "at least one GitHub key source must be provided".data)) := by
  constructor
  · exact parse_user_line_ok_keys
  · intro n t0 t1 t2 rest hAttr
    obtain ⟨u', hu', hk⟩ := foldlM_applyToken_attr_only n (t2 :: rest) hAttr
      { username := t0, password := (parsePassword t1).1,
        password_is_hashed := (parsePassword t1).2, gecos := none, shell := none,
        home := none, uid := none, gid := none, github_keys := [] }
    simp only [parse_user_line]
    rw [hu']
    simp [hk]

theorem parse_user_line_requires_key_source_witness :
    ({ username := "alice".data, password := none, password_is_hashed := false,
       gecos := some "Alice".data, shell := some "/bin/bash".data, home := none,
       uid := none, gid := none,
       github_keys := [KeySpec.repo "octocat".data "keys".data "ssh.pub".data
         "develop".data] } : UserSpec).github_keys ≠ [] ∧
    parse_user_line ["bob".data, "secret".data, "gecos=Bob".data] 1 =
      .error "Line 1: at least one GitHub key source must be provided".data := by
  constructor
  · exact parse_user_line_requires_key_source.1
      ["alice".data, "-".data, "octocat/keys:ssh.pub@develop".data, "gecos=Alice".data] 1 _
      (by decide)
  · exact parse_user_line_requires_key_source.2 1 "bob".data "secret".data "gecos=Bob".data []
      (by
        intro t ht u
        simp only [List.mem_cons, List.not_mem_nil, or_false] at ht
        subst ht
        exact ⟨{ u with gecos := some "Bob".data }, rfl, rfl⟩)

theorem addKeys_eq (c keys : List Str) :
    addKeys c keys = c ++ dedupNBAux c keys := by
  induction keys generalizing c with
  | nil => simp [addKeys, dedupNBAux]
  | cons k ks ih =>
    by_cases hk : k = [] ∨ k ∈ c
    · have hstep : (if k ≠ [] ∧ k ∉ c then c ++ [k] else c) = c := by
        rcases hk with hk | hk <;> simp [hk]
      show addKeys (if k ≠ [] ∧ k ∉ c then c ++ [k] else c) ks =
        c ++ dedupNBAux c (k :: ks)
      rw [hstep, ih c]
      congr 1
      simp only [dedupNBAux, if_pos hk]
    · push_neg at hk
      have hstep : (if k ≠ [] ∧ k ∉ c then c ++ [k] else c) = c ++ [k] := if_pos hk
      have hneg : ¬(k = [] ∨ k ∈ c) := by
        rintro (h | h)
        · exact hk.1 h
        · exact hk.2 h
      show addKeys (if k ≠ [] ∧ k ∉ c then c ++ [k] else c) ks =
        c ++ dedupNBAux c (k :: ks)
      rw [hstep, ih (c ++ [k])]
      simp only [dedupNBAux, if_neg hneg]
      simp

theorem dedupNBAux_append (xs ys : List Str) (seen : List Str) :
    dedupNBAux seen (xs ++ ys) =
      dedupNBAux seen xs ++ dedupNBAux (seen ++ dedupNBAux seen xs) ys := by
  induction xs generalizing seen with
  | nil => simp [dedupNBAux]
  | cons k ks ih =>
    by_cases hk : k = [] ∨ k ∈ seen
    · simp only [List.cons_append, dedupNBAux, if_pos hk]
      exact ih seen
    · simp only [List.cons_append, dedupNBAux, if_neg hk, List.append_eq]
      rw [ih (seen ++ [k])]
      simp

theorem dedupNBAux_eq_filter (l : List Str) (seen : List Str) :
    dedupNBAux seen l = dedupFirstAux seen (l.filter (fun k => k ≠ [])) := by
  induction l generalizing seen with
  | nil => rfl
  | cons k ks ih =>
    by_cases h0 : k = []
    · subst h0
      simp [dedupNBAux, ih]
    · by_cases h1 : k ∈ seen
      · simp [dedupNBAux, h0, h1, ih, dedupFirstAux]
      · simp [dedupNBAux, h0, h1, ih, dedupFirstAux]

theorem collect_foldl_eq (fetch : Str → Except Str Str) (sources : List KeySource)
    (c : List Str) :
    sources.foldl
      (fun c s =>
        match resolveSource fetch s with
        | none => c
        | some keys => addKeys c keys) c =
    c ++ dedupNBAux c ((sources.map (fun s => (resolveSource fetch s).getD [])).flatten) := by
  induction sources generalizing c with
  | nil => simp [dedupNBAux]
  | cons s rest ih =>
    cases hres : resolveSource fetch s with
    | none =>
      simp only [List.foldl_cons, hres, List.map_cons, List.flatten_cons,
        Option.getD_none, List.nil_append]
      exact ih c
    | some keys =>
      simp only [List.foldl_cons, hres, List.map_cons, List.flatten_cons,
        Option.getD_some]
      rw [addKeys_eq, ih (c ++ dedupNBAux c keys), dedupNBAux_append]
      simp

/-- C5: a failing key source is skipped without affecting the other sources,
and the collected keys are exactly the first-seen deduplication of the
non-blank key lines of the surviving sources, in order. -/
theorem collect_authorized_keys_skip_and_dedup :
    (∀ (fetch : Str → Except Str Str) (pre suf : List KeySource) (s : KeySource),
        resolveSource fetch s = none →
        collect_authorized_keys fetch (pre ++ s :: suf) =
          collect_authorized_keys fetch (pre ++ suf)) ∧
    (∀ (fetch : Str → Except Str Str) (sources : List KeySource),
        collect_authorized_keys fetch sources =
          dedupFirst ((((sources.map (fun s => (resolveSource fetch s).getD [])).flatten).filter
            (fun k => k ≠ [])))) := by
  constructor
  · intro fetch pre suf s hs
    simp only [collect_authorized_keys, List.foldl_append, List.foldl_cons, hs]
  · intro fetch sources
    rw [collect_authorized_keys, collect_foldl_eq, dedupNBAux_eq_filter]
    rfl

theorem collect_authorized_keys_skip_and_dedup_witness :
    collect_authorized_keys fetchW
      [KeySource.user "a".data, KeySource.url "https://x".data, KeySource.user "a".data] =
    collect_authorized_keys fetchW [KeySource.user "a".data, KeySource.user "a".data] :=
  collect_authorized_keys_skip_and_dedup.1 fetchW [KeySource.user "a".data]
    [KeySource.user "a".data] (KeySource.url "https://x".data) (by decide)

/-- C4: the written `authorized_keys` content is exactly the sorted set union
of the stripped non-blank pre-existing lines and the resolved keys, with no
duplicates; on existing `keyA` and resolved `keyB, keyA` the file holds
exactly `keyA` and `keyB`, sorted. -/
theorem install_authorized_keys_sorted_union (existingLines keys : List Str) :
    (install_authorized_keys_lines existingLines keys).Pairwise
      (fun a b => strLe a b = true) ∧
    (install_authorized_keys_lines existingLines keys).Nodup ∧
    (∀ s : Str, s ∈ install_authorized_keys_lines existingLines keys ↔
      (s ∈ (existingLines.map pyStrip).filter (fun l => l ≠ []) ∨ s ∈ keys)) ∧
    install_authorized_keys_text ["keyA".data] ["keyB".data, "keyA".data] =
      "keyA\nkeyB\n".data := by
  refine ⟨sortStrs_pairwise _, ?_, ?_, by decide⟩
  · exact ((sortStrs_perm _).nodup_iff).mpr (nodup_dedupFirst _)
  · intro s
    rw [install_authorized_keys_lines, (sortStrs_perm _).mem_iff, mem_dedupFirst,
      List.mem_append]

/-- C1: with the installation marker already present `install_to_disk` never
invokes the installer, whatever the detected disk; an invoked installer that
fails leaves the marker absent, and one that succeeds writes the marker
recording the disk used. -/
theorem install_to_disk_marker_exactly_once (env : InstallEnv) (disk : Option Str) :
    (env.markerExists = true → (install_to_disk env disk).installerInvoked = false) ∧
    ((install_to_disk env disk).installerInvoked = true → env.installOk = false →
      (install_to_disk env disk).markerWritten = none) ∧
    ((install_to_disk env disk).installerInvoked = true → env.installOk = true →
      ∃ d, disk = some d ∧
        (install_to_disk env disk).markerWritten = some (d ++ ['\n'])) := by
  obtain ⟨ki, me, ok⟩ := env
  cases disk with
  | none => simp [install_to_disk]
  | some d =>
    by_cases hd : d = []
    · simp [install_to_disk, hd]
    · cases ki with
      | none => simp [install_to_disk, hd]
      | some k => cases me <;> cases ok <;> simp [install_to_disk, hd]

theorem install_to_disk_marker_exactly_once_witness :
    (install_to_disk
      { kiwiInstall := some "/usr/bin/kiwi-install".data, markerExists := true,
        installOk := true } (some "/dev/sda".data)).installerInvoked = false ∧
    (install_to_disk
      { kiwiInstall := some "/usr/bin/kiwi-install".data, markerExists := false,
        installOk := false } (some "/dev/sda".data)).markerWritten = none ∧
    ∃ d, (some "/dev/sda".data : Option Str) = some d ∧
      (install_to_disk
        { kiwiInstall := some "/usr/bin/kiwi-install".data, markerExists := false,
          installOk := true } (some "/dev/sda".data)).markerWritten =
        some (d ++ ['\n']) :=
  ⟨(install_to_disk_marker_exactly_once _ _).1 rfl,
   (install_to_disk_marker_exactly_once _ _).2.1 (by decide) rfl,
   (install_to_disk_marker_exactly_once _ _).2.2 (by decide) rfl⟩

theorem normalisePackagesAux_eq (packages : List Str) (seen : List Str) :
    normalisePackagesAux seen packages = dedupNBAux seen (packages.map pyStrip) := by
  induction packages generalizing seen with
  | nil => rfl
  | cons pkg rest ih =>
    by_cases h : pyStrip pkg = [] ∨ pyStrip pkg ∈ seen
    · simp only [normalisePackagesAux, List.map_cons, dedupNBAux, if_pos h]
      exact ih seen
    · simp only [normalisePackagesAux, List.map_cons, dedupNBAux, if_neg h]
      rw [ih (seen ++ [pyStrip pkg])]

/-- C3: `validate_packages` first normalises its input — trimming, dropping
blanks and duplicates, keeping first-seen order, so that
`["a", "", "a", "b"]` becomes `["a", "b"]` — and an empty normalised list
short-circuits to an empty success without consulting the oracle (or even the
oracle-availability check). -/
theorem validate_packages_normalisation_short_circuit :
    normalise_packages ["a".data, "".data, "a".data, "b".data] =
      ["a".data, "b".data] ∧
    (∀ packages : List Str,
        normalise_packages packages =
          dedupFirst ((packages.map pyStrip).filter (fun s => s ≠ []))) ∧
    (∀ (zypperFound : Bool) (oracle : List Str → Option Str) (packages : List Str),
        normalise_packages packages = [] →
        validate_packages zypperFound oracle packages = .ok []) := by
  refine ⟨by decide, ?_, ?_⟩
  · intro packages
    rw [normalise_packages, normalisePackagesAux_eq, dedupNBAux_eq_filter]
    rfl
  · intro zypperFound oracle packages h
    simp [validate_packages, h]

theorem validate_packages_normalisation_short_circuit_witness :
    validate_packages false (fun _ => some "boom".data) ["  ".data, "".data] =
      .ok [] :=
  validate_packages_normalisation_short_circuit.2.2 false
    (fun _ => some "boom".data) ["  ".data, "".data] (by decide)

/-- C2 (code bug): on a failing batch the committed `validate_packages` does
not aggregate the missing names deduplicated — the merge-residue append at
line 108 of `config.py` adds the last extracted name a second time, so the
single missing package `a` is reported as `a, a`.  (As committed the module
does not even import: the interleaved older loop leaves a SyntaxError at
line 93.) -/
theorem validate_packages_duplicate_missing_report :
    validate_packages true oracleFail ["a".data] =
      .error "The following packages could not be validated: a, a".data := by
  decide

/-- C8: `render_ifcfg` renders the mandatory lines in fixed order followed by
GATEWAY, DNS and MTU lines exactly when their values are truthy, and on the
reference descriptor produces the expected text verbatim. -/
theorem render_ifcfg_field_order :
    render_ifcfg
      { interface := "eth0".data, address := "10.0.0.5".data, prefixlen := 24,
        gateway := some "10.0.0.1".data, dns := ["8.8.8.8".data],
        mtu := some 1500 } =
      ("DEVICE='eth0'\nBOOTPROTO='static'\nSTARTMODE='auto'\nONBOOT='yes'\n" ++
        "DEFROUTE='yes'\nPEERDNS='no'\nIPADDR='10.0.0.5/24'\nGATEWAY='10.0.0.1'\n" ++
        "DNS='8.8.8.8'\nMTU='1500'\n").data ∧
    ∀ n : NetworkInfo,
      render_ifcfg n =
        strJoin "\n".data
          (["DEVICE='".data ++ n.interface ++ "'".data,
            "BOOTPROTO='static'".data,
            "STARTMODE='auto'".data,
            "ONBOOT='yes'".data,
            "DEFROUTE='yes'".data,
            "PEERDNS='no'".data,
            "IPADDR='".data ++ n.address ++ "/".data ++ natStr n.prefixlen ++ "'".data] ++
          (match n.gateway with
            | some g => if g ≠ [] then ["GATEWAY='".data ++ g ++ "'".data] else []
            | none => []) ++
          (if strJoin " ".data (n.dns.filter (fun v => v ≠ [])) ≠ [] then
              ["DNS='".data ++ strJoin " ".data (n.dns.filter (fun v => v ≠ [])) ++ "'".data]
            else []) ++
          (match n.mtu with
            | some m => if m ≠ 0 then ["MTU='".data ++ natStr m ++ "'".data] else []
            | none => [])) ++ "\n".data := by
  refine ⟨by decide, ?_⟩
  intro n
  simp only [render_ifcfg, render_ifcfg_lines, List.append_assoc]

/-- C9 (code bug): the descriptor assembled by
`gather_interface_config_with_gateway` carries the freshly re-queried default
gateway, not the gateway passed in — the duplicate `"gateway"` key of the
source's dictionary literal discards the parameter. -/
theorem gather_interface_config_with_gateway_requeries :
    gather_interface_config_with_gateway "eth0".data (some "10.0.0.1".data)
        (some [addrPayloadW]) (some "192.168.0.1".data) ["8.8.8.8".data] =
      .ok { interface := "eth0".data, address := "10.0.0.5".data, prefixlen := 24,
            gateway := some "192.168.0.1".data, dns := ["8.8.8.8".data],
            mtu := some 1500 } ∧
    (match gather_interface_config_with_gateway "eth0".data (some "10.0.0.1".data)
        (some [addrPayloadW]) (some "192.168.0.1".data) ["8.8.8.8".data] with
      | .ok ni => ni.gateway
      | .error _ => none) ≠ some "10.0.0.1".data := by
  constructor
  · decide
  · decide
